import Mathlib

/-!
Shallow embedding of the NFT burn batch core (`hooks/use-burn-nfts.ts`) and of
the enrichment merge step (`hooks/use-nft-enrichment.ts`).

Network effects (account reads, simulation, wallet submission) are modelled by
an explicit oracle record `ChainOracle`; every network interaction of the code
goes through a field of the oracle, so a function that is provably independent
of the oracle performs no network call.
-/

namespace Cleaner

/-- Base58 addresses are modelled as strings. -/
abbrev PubKey := String

/-- The two ledger token program variants the code distinguishes
(`TOKEN_PROGRAM_ID` vs `TOKEN_2022_PROGRAM_ID`); any other account owner is
collapsed to `token` by `getMintProgramId` in the source. -/
inductive TokenProgram
  | token
  | token2022
deriving DecidableEq

/-- Transaction instructions, kept abstract except for the shapes the core
itself constructs: the two compute-budget instructions, the bare SPL burn and
close-account instructions, and opaque builder-produced instructions. -/
inductive Ix
  | cbLimit (units : Nat)
  | cbPrice (microLamports : Nat)
  | burnIx (tokenAccount mint : PubKey) (program : TokenProgram)
  | closeAccount (tokenAccount : PubKey) (program : TokenProgram)
  | raw (code : Nat)
deriving DecidableEq

/-- Model of `CB_UNITS` from the source. -/
def CB_UNITS : Nat := 1000000

/-- Model of `PRIORITY_FEE_MICRO_LAMPORTS` from the source. -/
def PRIORITY_FEE_MICRO_LAMPORTS : Nat := 20000

/-- The fixed pair of compute-budget instructions prepended everywhere. -/
def cbIxs : List Ix := [.cbLimit CB_UNITS, .cbPrice PRIORITY_FEE_MICRO_LAMPORTS]

/-- Model of `NftBurnItem` from the source: one asset descriptor. -/
structure NftBurnItem where
  mint : PubKey
  tokenAccount : Option PubKey
  isCompressed : Bool
  isPnftHint : Bool
  isCoreHint : Bool
  programIdHint : Option TokenProgram
  frozenHint : Bool
  collectionMintHint : Option PubKey
deriving DecidableEq

/-- JavaScript `unknown` error values as far as `stringifyErr` inspects them:
`null`, a string, an object with an optional (possibly falsy) `message`
field together with its JSON rendering. -/
inductive ErrVal
  | nullE
  | str (s : String)
  | obj (message : Option String) (json : String)
deriving DecidableEq

/-- Model of `stringifyErr` from the source: empty string for null, the string itself,
a truthy `message` field, otherwise the JSON rendering. -/
def stringifyErr : ErrVal → String
  | .nullE => ""
  | .str s => s
  | .obj message json =>
    match message with
    | some m => if m = "" then json else m
    | none => json

/-- Boolean test: `pat` is a leading segment of `s` (character lists). -/
def charsStartWith : List Char → List Char → Bool
  | [], _ => true
  | _ :: _, [] => false
  | p :: ps, c :: cs => p == c && charsStartWith ps cs

/-- Boolean substring search on character lists, modelling
JavaScript `String.prototype.includes`. -/
def charsContain : List Char → List Char → Bool
  | [], pat => pat.isEmpty
  | c :: rest, pat => charsStartWith pat (c :: rest) || charsContain rest pat

/-- Model of `s.includes(pat)` on the modelled strings. -/
def containsSub (s pat : String) : Bool :=
  charsContain s.toList pat.toList

/-- Model of `toLowerCase()` modelled character-wise. -/
def lowerStr (s : String) : List Char :=
  s.toList.map Char.toLower

/-- Model of `isTooLargeErr` from the source, restricted to the string it actually
inspects (at every call site the argument is already a string, so the inner
`stringifyErr` is the identity). -/
def isTooLargeErr (s : String) : Bool :=
  containsSub s "VersionedTransaction too large" ||
  containsSub s "solana_transaction::versioned::VersionedTransaction too large" ||
  containsSub s "transaction too large" ||
  containsSub s "Transaction too large" ||
  containsSub s "packet too large" ||
  containsSub s "encoded/raw"

/-- The list of oversized-payload phrasings named by the spec, written as a
plain list so the classification of `isTooLargeErr` can be compared to it. -/
def oversizedPhrases : List String :=
  ["VersionedTransaction too large",
   "solana_transaction::versioned::VersionedTransaction too large",
   "transaction too large",
   "Transaction too large",
   "packet too large",
   "encoded/raw"]

/-- Outcome of the raw RPC simulation call, as seen by `simulateIxs`:
the call may throw, return a failure (with logs), or succeed. -/
inductive RpcSim
  | throwsE (e : ErrVal)
  | simErr (err : ErrVal) (logs : List String)
  | simOk
deriving DecidableEq

/-- The payload of a failed simulation (`SimFail` in the source): raw error,
its stringified form, and the logs when the RPC returned any. -/
structure SimFailData where
  err : ErrVal
  errStr : String
  logs : Option (List String)
deriving DecidableEq

/-- Model of `SimResult` from the source. -/
inductive SimResult
  | ok
  | fail (data : SimFailData)
deriving DecidableEq

/-- Model of `simulateIxs` from the source: a thrown exception and a returned
simulation error are both mapped to a failure value; nothing propagates. -/
def simulateIxs : RpcSim → SimResult
  | .simOk => .ok
  | .simErr err logs => .fail ⟨err, stringifyErr err, some logs⟩
  | .throwsE e => .fail ⟨e, stringifyErr e, none⟩

/-- The console diagnostic slice `logs.slice(-12)` from the source. -/
def simDiagnosticLogs (logs : List String) : List String :=
  logs.drop (logs.length - 12)

/-- Model of `BurnOk` from the source. -/
structure BurnOk where
  mint : PubKey
  sig : String
deriving DecidableEq

/-- Model of `BurnSkip` from the source. -/
structure BurnSkip where
  mint : PubKey
  reason : String
deriving DecidableEq

/-- Model of `BurnBatchResult` from the source. -/
structure BurnBatchResult where
  ok : List BurnOk
  skipped : List BurnSkip
deriving DecidableEq

/-- Model of `Kind` from the source. -/
inductive Kind
  | spl
  | pnft
  | core
deriving DecidableEq

/-- A prepared item: mint, chosen instruction sequence, kind tag. -/
structure Prepared where
  mint : PubKey
  ixs : List Ix
  kind : Kind
deriving DecidableEq

/-- Model of `Group` from the source. -/
structure Group where
  mint : PubKey
  ixs : List Ix
deriving DecidableEq

/-- The four candidate sequences `buildPnftVariants` can return. -/
structure PnftVariants where
  burnOnly : List Ix
  unlockThenBurn : List Ix
  burnOnlyWithRules : Option (List Ix)
  unlockThenBurnWithRules : Option (List Ix)
deriving DecidableEq

/-- The oracle bundling every network interaction of the core:
mint-account owner reads, token-account owner reads, ATA derivation, the
core / pNFT / legacy builders (which perform their own account reads), the
simulation RPC, and the wallet sign-and-submit call. -/
structure ChainOracle where
  mintInfo : PubKey → Option TokenProgram
  tokenAccInfo : PubKey → Option TokenProgram
  ata : PubKey → TokenProgram → PubKey
  coreVariants : PubKey → Except String (List Ix × List Ix)
  pnftVariants : PubKey → PubKey → Option PubKey → Option PnftVariants
  legacy : PubKey → PubKey → TokenProgram → Option (List Ix)
  sim : List Ix → RpcSim
  submit : List Ix → Except String String

/-- Model of `getMintProgramId` from the source: read the mint account owner;
throw (modelled as `.error`) when the account is absent. -/
def getMintProgramId (o : ChainOracle) (mint : PubKey) : Except String TokenProgram :=
  match o.mintInfo mint with
  | none => .error ("Mint not found: " ++ mint)
  | some p => .ok p

/-- Model of `resolveAtaByMintProgram` from the source (the derived address). -/
def resolveAtaByMintProgram (o : ChainOracle) (mint : PubKey) (programId : TokenProgram) : PubKey :=
  o.ata mint programId

/-- Line 450 of the source: `it.programIdHint ?? (await getMintProgramId(it.mint))`. -/
def resolveProgramId (o : ChainOracle) (it : NftBurnItem) : Except String TokenProgram :=
  match it.programIdHint with
  | some p => .ok p
  | none => getMintProgramId o it.mint

/-- A candidate simulates accepted: the simulation of the compute-budget
prefix plus the candidate returns ok. -/
def simAccepted (o : ChainOracle) (ixs : List Ix) : Bool :=
  match simulateIxs (o.sim (cbIxs ++ ixs)) with
  | .ok => true
  | .fail _ => false

/-- The `order` array of the source (labels dropped): the fixed candidate
priority order for rule-protected assets. -/
def pnftCandidates (v : PnftVariants) : List (Option (List Ix)) :=
  [v.burnOnlyWithRules, some v.burnOnly, v.unlockThenBurnWithRules, some v.unlockThenBurn]

/-- The `??`-chain fallback of the source: since `burnOnly` always exists the
chain reduces to `burnOnlyWithRules ?? burnOnly`. -/
def pnftFallback (v : PnftVariants) : List Ix :=
  v.burnOnlyWithRules.getD v.burnOnly

/-- One iteration of the candidate loop: a candidate is picked when it
exists, is non-empty (`!cand.ixs || cand.ixs.length === 0` skips), and its
simulation is accepted. -/
def pnftPick (accept : List Ix → Bool) : Option (List Ix) → Option (List Ix)
  | some ixs => if !ixs.isEmpty && accept ixs then some ixs else none
  | none => none

/-- The candidate loop of the source: first candidate that exists, is
non-empty, and simulates accepted; otherwise the `??`-chain fallback. -/
def selectPnftIxs (accept : List Ix → Bool) (v : PnftVariants) : List Ix :=
  match (pnftCandidates v).findSome? (pnftPick accept) with
  | some ixs => ixs
  | none => pnftFallback v

/-- A candidate that the loop passes over: absent, empty, or rejected by
simulation. -/
def candidateFails (accept : List Ix → Bool) : Option (List Ix) → Prop
  | none => True
  | some l => l = [] ∨ accept l = false

/-- The bare SPL fallback pair: burn one unit then close the holding account. -/
def splIxs (mint tokenAccount : PubKey) (programId : TokenProgram) : List Ix :=
  [.burnIx tokenAccount mint programId, .closeAccount tokenAccount programId]

/-- One iteration of the preparation loop of `mutateAsync` (lines 415-565):
yields exactly one skip record or one prepared item per input descriptor. -/
def prepareItem (o : ChainOracle) (deepClean : Bool) (it : NftBurnItem) : BurnSkip ⊕ Prepared :=
  if it.isCompressed then .inl ⟨it.mint, "cNFT not supported"⟩
  else if it.isCoreHint then
    match o.coreVariants it.mint with
    | .error e => .inl ⟨it.mint, "core build failed: " ++ e⟩
    | .ok (withCollection, withoutCollection) =>
      let chosen := if !withCollection.isEmpty then withCollection else withoutCollection
      if chosen.isEmpty then .inl ⟨it.mint, "core burn: no viable instructions"⟩
      else .inr ⟨it.mint, chosen, .core⟩
  else
    match resolveProgramId o it with
    | .error e => .inl ⟨it.mint, "error: " ++ e⟩
    | .ok programId =>
      match (match it.tokenAccount with
             | none => some (resolveAtaByMintProgram o it.mint programId)
             | some ta0 =>
               match o.tokenAccInfo ta0 with
               | none => none
               | some ataProgram =>
                 if ataProgram ≠ programId then some (resolveAtaByMintProgram o it.mint programId)
                 else some ta0) with
      | none => .inl ⟨it.mint, "token account not found"⟩
      | some tokenAccount =>
        let pnftIxs : Option (List Ix) :=
          match o.pnftVariants it.mint tokenAccount it.collectionMintHint with
          | none => none
          | some v => some (selectPnftIxs (simAccepted o) v)
        match deepClean, pnftIxs with
        | true, some ixs => .inr ⟨it.mint, ixs, .pnft⟩
        | true, none =>
          match o.legacy it.mint tokenAccount programId with
          | some legacyIxs =>
            if simAccepted o legacyIxs then .inr ⟨it.mint, legacyIxs, .spl⟩
            else .inr ⟨it.mint, splIxs it.mint tokenAccount programId, .spl⟩
          | none => .inr ⟨it.mint, splIxs it.mint tokenAccount programId, .spl⟩
        | false, _ => .inr ⟨it.mint, splIxs it.mint tokenAccount programId, .spl⟩

/-- The whole preparation loop, preserving input order on both sides. -/
def prepareItems (o : ChainOracle) (deepClean : Bool) : List NftBurnItem → List Prepared × List BurnSkip
  | [] => ([], [])
  | it :: rest =>
    let r := prepareItems o deepClean rest
    match prepareItem o deepClean it with
    | .inl s => (r.1, s :: r.2)
    | .inr p => (p :: r.1, r.2)

/-- The grouping `for` loop: slices of at most `k` consecutive elements.
The `fuel` argument only drives the recursion; `chunkList` supplies the list
length, which always suffices since every step consumes at least one element. -/
def chunkGo {α : Type} (k : Nat) : Nat → List α → List (List α)
  | _, [] => []
  | 0, _ :: _ => []
  | fuel + 1, x :: xs => (x :: xs.take (k - 1)) :: chunkGo k fuel (xs.drop (k - 1))

/-- The grouping `for` loop of `mutateAsync`. -/
def chunkList {α : Type} (k : Nat) (l : List α) : List (List α) :=
  chunkGo k l.length l

/-- Model of `MAX_PER_TX` from the source: 16 when every prepared item is bare SPL,
else 6. -/
def maxPerTx (prepared : List Prepared) : Nat :=
  if (prepared.filter (fun p => p.kind ≠ Kind.spl)).length = 0 then 16 else 6

/-- The grouping step of `mutateAsync`. -/
def makeGroups (prepared : List Prepared) : List (List Group) :=
  chunkList (maxPerTx prepared) (prepared.map (fun p => ⟨p.mint, p.ixs⟩))

/-- Finalization inside `sendGroups`: compute-budget pair plus the
concatenated per-item instruction sequences. -/
def finalizeGroup (group : List Group) : List Ix :=
  cbIxs ++ group.flatMap (fun g => g.ixs)

/-- The user-decline test of the source:
`msg.includes('reject') || msg.includes('denied') || msg.includes('cancel')`
on the lowercased message. -/
def isUserDecline (m : String) : Bool :=
  charsContain (lowerStr m) "reject".toList ||
  charsContain (lowerStr m) "denied".toList ||
  charsContain (lowerStr m) "cancel".toList

/-- The split decision of `sendGroups`: a failed simulation whose error text
matches an oversized phrasing, on a group of more than one item. -/
def shouldSplit (simRes : SimResult) (group : List Group) : Bool :=
  match simRes with
  | .ok => false
  | .fail d => isTooLargeErr d.errStr && decide (1 < group.length)

/-- The midpoint split `group.slice(0, mid)` / `group.slice(mid)`. -/
def splitFront (group : List Group) : List Group × List Group :=
  (group.take (group.length / 2), group.drop (group.length / 2))

/-- The `while` loop of `sendGroups`, with an explicit fuel bound; `none`
means the fuel ran out (the termination theorem shows `queueMeasure` fuel
always suffices). An `.error` value models the rethrown submission error. -/
def sendGroupsFuel (o : ChainOracle) : Nat → List (List Group) → List BurnOk → Option (Except String (List BurnOk))
  | _, [], acc => some (.ok acc)
  | 0, _ :: _, _ => none
  | fuel + 1, group :: rest, acc =>
    if shouldSplit (simulateIxs (o.sim (finalizeGroup group))) group then
      sendGroupsFuel o fuel ((splitFront group).1 :: (splitFront group).2 :: rest) acc
    else
      match o.submit (finalizeGroup group) with
      | .ok sig => sendGroupsFuel o fuel rest (acc ++ group.map (fun g => ⟨g.mint, sig⟩))
      | .error m => if isUserDecline m then sendGroupsFuel o fuel rest acc else some (.error m)

/-- Termination measure for the queue: splitting a group of size `n ≥ 2`
into halves strictly decreases the sum of `3 ^ size`. -/
def queueMeasure (q : List (List Group)) : Nat :=
  (q.map (fun g => 3 ^ g.length)).sum

/-- Model of `sendGroups` from the source, run with sufficient fuel. -/
def sendGroups (o : ChainOracle) (groups : List (List Group)) : Option (Except String (List BurnOk)) :=
  sendGroupsFuel o (queueMeasure groups) groups []

/-- The submission branch of the loop body, named so that theorems can state
that a group reaches submission. -/
def submitStep (o : ChainOracle) (fuel : Nat) (group : List Group) (rest : List (List Group)) (acc : List BurnOk) : Option (Except String (List BurnOk)) :=
  match o.submit (finalizeGroup group) with
  | .ok sig => sendGroupsFuel o fuel rest (acc ++ group.map (fun g => ⟨g.mint, sig⟩))
  | .error m => if isUserDecline m then sendGroupsFuel o fuel rest acc else some (.error m)

/-- Model of `mutateAsync` from the source (the wallet-connected check is outside the
model: the owner key only routes through the oracle). -/
def mutateAsync (o : ChainOracle) (deepClean : Bool) (rawItems : List NftBurnItem) : Option (Except String BurnBatchResult) :=
  let pr := prepareItems o deepClean rawItems
  let groups := makeGroups pr.1
  if groups.isEmpty then some (.ok ⟨[], pr.2⟩)
  else
    match sendGroups o groups with
    | some (.ok ok) => some (.ok ⟨ok, pr.2⟩)
    | some (.error m) => some (.error m)
    | none => none

/-- One split step on group sizes: a group of size `n ≥ 2` is replaced by
halves of sizes `n / 2` and `n - n / 2`; a chain follows either half. -/
def isSplitChain : Nat → List Nat → Bool
  | _, [] => true
  | n, m :: rest => (decide (2 ≤ n) && (m == n / 2 || m == n - n / 2)) && isSplitChain m rest

/-- enrichment hook: assets carry an id and an opaque payload. -/
structure HeliusAsset where
  id : String
  payload : Nat
deriving DecidableEq

/-- The `setNfts` updater of `useNftEnrichment` (lines 74-77): build a map
keyed by id from the enriched batch (later entries win, as in a JS `Map`)
and replace each current element by its enriched version when present. -/
def applyEnrichedBatch (curr enriched : List HeliusAsset) : List HeliusAsset :=
  curr.map (fun c => (enriched.reverse.find? (fun e => e.id == c.id)).getD c)

/-! Concrete fixtures used to evaluate the model on explicit inputs.
`ChainOracle` fields in order: `mintInfo`, `tokenAccInfo`, `ata`,
`coreVariants`, `pnftVariants`, `legacy`, `sim`, `submit`. -/

/-- Every read succeeds with the legacy token program, simulation accepts,
submission returns a signature. -/
def baseOracle : ChainOracle :=
  ⟨fun _ => some .token, fun _ => some .token, fun m _ => "ata-" ++ m,
   fun _ => Except.ok ([], []), fun _ _ _ => none, fun _ _ _ => none,
   fun _ => .simOk, fun _ => Except.ok "sig1"⟩

/-- As `baseOracle`, but the wallet declines every submission. -/
def declineOracle : ChainOracle :=
  ⟨fun _ => some .token, fun _ => some .token, fun m _ => "ata-" ++ m,
   fun _ => Except.ok ([], []), fun _ _ _ => none, fun _ _ _ => none,
   fun _ => .simOk, fun _ => Except.error "User rejected the request."⟩

/-- As `baseOracle`, but submission fails with a non-decline error. -/
def fatalOracle : ChainOracle :=
  ⟨fun _ => some .token, fun _ => some .token, fun m _ => "ata-" ++ m,
   fun _ => Except.ok ([], []), fun _ _ _ => none, fun _ _ _ => none,
   fun _ => .simOk, fun _ => Except.error "blockhash not found"⟩

/-- As `baseOracle`, but every simulation fails with an oversized error. -/
def oversizedOracle : ChainOracle :=
  ⟨fun _ => some .token, fun _ => some .token, fun m _ => "ata-" ++ m,
   fun _ => Except.ok ([], []), fun _ _ _ => none, fun _ _ _ => none,
   fun _ => .simErr (.str "transaction too large") [], fun _ => Except.ok "sig1"⟩

/-- As `baseOracle`, but every simulation fails with a non-oversized error. -/
def rejectedSimOracle : ChainOracle :=
  ⟨fun _ => some .token, fun _ => some .token, fun m _ => "ata-" ++ m,
   fun _ => Except.ok ([], []), fun _ _ _ => none, fun _ _ _ => none,
   fun _ => .simErr (.str "custom program error") ["lg"], fun _ => Except.ok "sig1"⟩

/-- The mint account is owned by the 2022 program, while the supplied token
account is owned by the legacy program. -/
def c8Oracle : ChainOracle :=
  ⟨fun _ => some .token2022, fun _ => some .token, fun m _ => "ata-" ++ m,
   fun _ => Except.ok ([], []), fun _ _ _ => none, fun _ _ _ => none,
   fun _ => .simOk, fun _ => Except.ok "sig1"⟩

/-- The core builder throws (missing canonical record). -/
def c9Oracle : ChainOracle :=
  ⟨fun _ => some .token, fun _ => some .token, fun m _ => "ata-" ++ m,
   fun _ => Except.error "Account not found", fun _ _ _ => none, fun _ _ _ => none,
   fun _ => .simOk, fun _ => Except.ok "sig1"⟩

/-- A plain uncompressed descriptor with a supplied token account and a
legacy program hint. -/
def c1Item : NftBurnItem :=
  ⟨"m1", some "ta1", false, false, false, some .token, false, none⟩

/-- As `c1Item`, but with no program hint. -/
def c8ItemNoHint : NftBurnItem :=
  ⟨"m1", some "ta1", false, false, false, none, false, none⟩

/-- A compressed descriptor with every other hint set. -/
def c2Item : NftBurnItem :=
  ⟨"m3", none, true, true, true, some .token, true, some "coll"⟩

/-- A core-hinted descriptor. -/
def c9Item : NftBurnItem :=
  ⟨"m2", none, false, false, true, none, false, none⟩

/-- A two-item group. -/
def twoGroup : List Group :=
  [⟨"m1", [.raw 1]⟩, ⟨"m2", [.raw 2]⟩]

/-- A singleton group. -/
def oneGroup : List Group :=
  [⟨"m1", [.raw 1]⟩]

/-- Thirteen diagnostic log lines. -/
def thirteenLogs : List String := List.replicate 13 "log line"

/-! Helper lemmas. -/

theorem three_pow_add_lt {a b : Nat} (ha : 1 ≤ a) (hb : 1 ≤ b) :
    3 ^ a + 3 ^ b < 3 ^ (a + b) := by
  have hx : 3 ^ 1 ≤ 3 ^ a := Nat.pow_le_pow_right (by norm_num) ha
  have hy : 3 ^ 1 ≤ 3 ^ b := Nat.pow_le_pow_right (by norm_num) hb
  rw [pow_add]
  nlinarith [hx, hy]

theorem queueMeasure_cons (g : List Group) (q : List (List Group)) :
    queueMeasure (g :: q) = 3 ^ g.length + queueMeasure q := by
  simp [queueMeasure]

theorem queueMeasure_split_lt {group : List Group} (h : 1 < group.length)
    (rest : List (List Group)) :
    queueMeasure ((splitFront group).1 :: (splitFront group).2 :: rest)
      < queueMeasure (group :: rest) := by
  have h1 : (splitFront group).1.length = group.length / 2 := by
    simp [splitFront, List.length_take]
    omega
  have h2 : (splitFront group).2.length = group.length - group.length / 2 := by
    simp [splitFront, List.length_drop]
  rw [queueMeasure_cons, queueMeasure_cons, queueMeasure_cons, h1, h2]
  have hlt : 3 ^ (group.length / 2) + 3 ^ (group.length - group.length / 2)
      < 3 ^ (group.length / 2 + (group.length - group.length / 2)) :=
    three_pow_add_lt (by omega) (by omega)
  have heq : group.length / 2 + (group.length - group.length / 2) = group.length := by omega
  rw [heq] at hlt
  omega

theorem shouldSplit_true_iff {simRes : SimResult} {group : List Group} :
    shouldSplit simRes group = true ↔
      ∃ d, simRes = .fail d ∧ isTooLargeErr d.errStr = true ∧ 1 < group.length := by
  cases simRes with
  | ok => simp [shouldSplit]
  | fail d => simp [shouldSplit]

theorem sendGroupsFuel_isSome (o : ChainOracle) :
    ∀ (fuel : Nat) (q : List (List Group)) (acc : List BurnOk),
      queueMeasure q ≤ fuel → (sendGroupsFuel o fuel q acc).isSome = true := by
  intro fuel
  induction fuel with
  | zero =>
    intro q acc h
    cases q with
    | nil => simp [sendGroupsFuel]
    | cons g rest =>
      exfalso
      have : 1 ≤ 3 ^ g.length := Nat.one_le_pow _ _ (by norm_num)
      rw [queueMeasure_cons] at h
      omega
  | succ fuel ih =>
    intro q acc h
    cases q with
    | nil => simp [sendGroupsFuel]
    | cons group rest =>
      cases hs : shouldSplit (simulateIxs (o.sim (finalizeGroup group))) group with
      | true =>
        simp only [sendGroupsFuel, hs, if_true]
        apply ih
        obtain ⟨d, _, _, hlen⟩ := shouldSplit_true_iff.mp hs
        have := queueMeasure_split_lt hlen rest
        omega
      | false =>
        simp only [sendGroupsFuel, hs, Bool.false_eq_true, if_false]
        have hrest : queueMeasure rest ≤ fuel := by
          have : 1 ≤ 3 ^ group.length := Nat.one_le_pow _ _ (by norm_num)
          rw [queueMeasure_cons] at h
          omega
        cases hsub : o.submit (finalizeGroup group) with
        | ok sig => exact ih _ _ hrest
        | error m =>
          cases hd : isUserDecline m with
          | true => simpa [hd] using ih rest acc hrest
          | false => simp [hd]

theorem clog_split_step {n m : Nat} (hn : 2 ≤ n)
    (hm : m = n / 2 ∨ m = n - n / 2) : Nat.clog 2 m + 1 ≤ Nat.clog 2 n := by
  have hc : 0 < Nat.clog 2 n := Nat.clog_pos (by norm_num) hn
  have hle : n ≤ 2 ^ Nat.clog 2 n := Nat.le_pow_clog (by norm_num) n
  have hpow : 2 ^ Nat.clog 2 n = 2 ^ (Nat.clog 2 n - 1) * 2 := by
    conv_lhs => rw [← Nat.succ_pred_eq_of_pos hc]
    rw [pow_succ, Nat.pred_eq_sub_one]
  have hmle : m ≤ 2 ^ (Nat.clog 2 n - 1) := by omega
  have : Nat.clog 2 m ≤ Nat.clog 2 n - 1 :=
    (Nat.le_pow_iff_clog_le (by norm_num)).mp hmle
  omega

theorem isSplitChain_length_le :
    ∀ (l : List Nat) (n : Nat), isSplitChain n l = true → l.length ≤ Nat.clog 2 n := by
  intro l
  induction l with
  | nil => intro n _; simp
  | cons m rest ih =>
    intro n h
    simp only [isSplitChain, Bool.and_eq_true, decide_eq_true_eq, Bool.or_eq_true,
      beq_iff_eq] at h
    obtain ⟨⟨hn, hm⟩, hrest⟩ := h
    have h1 := ih m hrest
    have h2 := clog_split_step hn hm
    simp only [List.length_cons]
    omega

theorem prepareItems_skip_mem (o : ChainOracle) (dc : Bool) (it : NftBurnItem)
    (s : BurnSkip) (hs : prepareItem o dc it = .inl s) :
    ∀ (items : List NftBurnItem), it ∈ items → s ∈ (prepareItems o dc items).2 := by
  intro items
  induction items with
  | nil => intro h; cases h
  | cons a rest ih =>
    intro hmem
    rcases List.mem_cons.mp hmem with heq | htail
    · subst heq
      simp only [prepareItems, hs]
      exact List.mem_cons_self _ _
    · have hin := ih htail
      simp only [prepareItems]
      cases hpa : prepareItem o dc a with
      | inl s2 => simpa using Or.inr hin
      | inr p => simpa using hin

theorem mutateAsync_ok_skipped (o : ChainOracle) (dc : Bool)
    (items : List NftBurnItem) (r : BurnBatchResult)
    (h : mutateAsync o dc items = some (.ok r)) :
    r.skipped = (prepareItems o dc items).2 := by
  simp only [mutateAsync] at h
  by_cases hg : (makeGroups (prepareItems o dc items).1).isEmpty
  · simp only [hg, if_true] at h
    cases h
    rfl
  · simp only [hg, Bool.false_eq_true, if_false] at h
    cases hsend : sendGroups o (makeGroups (prepareItems o dc items).1) with
    | none => rw [hsend] at h; cases h
    | some res =>
      rw [hsend] at h
      cases res with
      | ok okList => cases h; rfl
      | error m => cases h

theorem applyEnriched_entry_id (enriched : List HeliusAsset) (c : HeliusAsset) :
    ((enriched.reverse.find? (fun e => e.id == c.id)).getD c).id = c.id := by
  cases hf : enriched.reverse.find? (fun e => e.id == c.id) with
  | none => rfl
  | some e =>
    have he := List.find?_some hf
    simp only [beq_iff_eq] at he
    simpa using he

theorem pnftPick_eq_some {accept : List Ix → Bool} {c : Option (List Ix)}
    {l : List Ix} (h1 : c = some l) (h2 : l ≠ []) (h3 : accept l = true) :
    pnftPick accept c = some l := by
  subst h1
  simp [pnftPick, h2, h3]

theorem pnftPick_eq_none {accept : List Ix → Bool} {c : Option (List Ix)}
    (h : candidateFails accept c) : pnftPick accept c = none := by
  cases c with
  | none => rfl
  | some l =>
    rcases h with hnil | hrej
    · simp [pnftPick, hnil]
    · simp [pnftPick, hrej]

/-! Claim theorems. -/

/-- C1: the claimed invariant `|succeeded| + |skipped| = |input|` fails on a
run in which the wallet declines a group: the declined group's single asset
appears in neither list, so the run returns `ok = []`, `skipped = []` for a
one-element input. -/
theorem C1_decline_run_loses_accounting :
    mutateAsync declineOracle false [c1Item] = some (Except.ok ⟨[], []⟩)
      ∧ ¬ (([] : List BurnOk).length + ([] : List BurnSkip).length
            = [c1Item].length) := by
  exact ⟨rfl, by decide⟩

/-- C2 counterexample: a compressed descriptor is skipped with the literal
reason string "cNFT not supported", not "unsupported asset kind". -/
theorem C2_reason_counterexample :
    prepareItem declineOracle true c2Item = Sum.inl ⟨"m3", "cNFT not supported"⟩
      ∧ "cNFT not supported" ≠ "unsupported asset kind" := by
  exact ⟨rfl, by decide⟩

/-- C2 (amended): a compressed descriptor is always skipped with reason
"cNFT not supported", regardless of any other hint; the result is the same
for every oracle and flag (hence no builder is invoked and no network call is
made for it), the preparation loop continues with the remaining items, and a
non-throwing run reports the skip in its `skipped` list. -/
theorem C2_compressed_skip (it : NftBurnItem) (h : it.isCompressed = true) :
    (∀ (o : ChainOracle) (dc : Bool),
        prepareItem o dc it = Sum.inl ⟨it.mint, "cNFT not supported"⟩)
      ∧ (∀ (o : ChainOracle) (dc : Bool) (rest : List NftBurnItem),
          prepareItems o dc (it :: rest)
            = ((prepareItems o dc rest).1,
               ⟨it.mint, "cNFT not supported"⟩ :: (prepareItems o dc rest).2))
      ∧ (∀ (o : ChainOracle) (dc : Bool) (items : List NftBurnItem)
            (r : BurnBatchResult), it ∈ items →
          mutateAsync o dc items = some (Except.ok r) →
          (⟨it.mint, "cNFT not supported"⟩ : BurnSkip) ∈ r.skipped) := by
  have hone : ∀ (o : ChainOracle) (dc : Bool),
      prepareItem o dc it = Sum.inl ⟨it.mint, "cNFT not supported"⟩ := by
    intro o dc
    simp [prepareItem, h]
  refine ⟨hone, ?_, ?_⟩
  · intro o dc rest
    simp [prepareItems, hone o dc]
  · intro o dc items r hmem hrun
    rw [mutateAsync_ok_skipped o dc items r hrun]
    exact prepareItems_skip_mem o dc it _ (hone o dc) items hmem

/-- C2 witness: the amended statement evaluated on a concrete compressed
descriptor and oracle. -/
theorem C2_compressed_skip_witness :
    prepareItem declineOracle true c2Item = Sum.inl ⟨"m3", "cNFT not supported"⟩
      ∧ (⟨"m3", "cNFT not supported"⟩ : BurnSkip)
          ∈ (⟨[], [⟨"m3", "cNFT not supported"⟩]⟩ : BurnBatchResult).skipped := by
  have h := C2_compressed_skip c2Item rfl
  exact ⟨h.1 declineOracle true,
         h.2.2 declineOracle true [c2Item] _ (by simp) rfl⟩

/-- C3: an oversized simulation on a group of `n > 1` items replaces it by
exactly the two non-empty front halves of sizes `n / 2` and `⌈n / 2⌉`,
re-enqueued at the front in their original relative order; any chain of
repeated split steps starting from size `n` has length at most
`⌈log2 n⌉ = Nat.clog 2 n`; and the queue-draining loop terminates for every
finite input (fuel `queueMeasure q` always suffices). -/
theorem C3_split_and_termination :
    (∀ (o : ChainOracle) (fuel : Nat) (group : List Group)
        (rest : List (List Group)) (acc : List BurnOk) (d : SimFailData),
        simulateIxs (o.sim (finalizeGroup group)) = .fail d →
        isTooLargeErr d.errStr = true → 1 < group.length →
          sendGroupsFuel o (fuel + 1) (group :: rest) acc
              = sendGroupsFuel o fuel
                  ((splitFront group).1 :: (splitFront group).2 :: rest) acc
            ∧ (splitFront group).1.length = group.length / 2
            ∧ (splitFront group).2.length = (group.length + 1) / 2
            ∧ (splitFront group).1 ≠ []
            ∧ (splitFront group).2 ≠ []
            ∧ (splitFront group).1 ++ (splitFront group).2 = group)
      ∧ (∀ (n : Nat) (l : List Nat),
          isSplitChain n l = true → l.length ≤ Nat.clog 2 n)
      ∧ (∀ (o : ChainOracle) (q : List (List Group)),
          (sendGroupsFuel o (queueMeasure q) q []).isSome = true) := by
  refine ⟨?_, fun n l h => isSplitChain_length_le l n h,
          fun o q => sendGroupsFuel_isSome o _ q [] (le_refl _)⟩
  intro o fuel group rest acc d hsim htl hlen
  have hs : shouldSplit (simulateIxs (o.sim (finalizeGroup group))) group = true := by
    rw [hsim]
    simp [shouldSplit, htl, hlen]
  refine ⟨by simp only [sendGroupsFuel, hs, if_true], ?_, ?_, ?_, ?_, ?_⟩
  · simp only [splitFront, List.length_take]
    omega
  · simp only [splitFront, List.length_drop]
    omega
  · simp only [splitFront, ne_eq, ← List.length_eq_zero, List.length_take]
    omega
  · simp only [splitFront, ne_eq, ← List.length_eq_zero, List.length_drop]
    omega
  · exact List.take_append_drop _ _

/-- C3 witness: the split equation on a concrete oversized two-item group,
the chain bound on the concrete chain 5 → 3 → 2 → 1, and termination on a
concrete queue. -/
theorem C3_witness :
    (sendGroupsFuel oversizedOracle 1 [twoGroup] []
        = sendGroupsFuel oversizedOracle 0
            ((splitFront twoGroup).1 :: (splitFront twoGroup).2 :: []) [])
      ∧ ([3, 2, 1] : List Nat).length ≤ Nat.clog 2 5
      ∧ (sendGroupsFuel baseOracle (queueMeasure [twoGroup]) [twoGroup] []).isSome
          = true := by
  refine ⟨(C3_split_and_termination.1 oversizedOracle 0 twoGroup [] []
            ⟨.str "transaction too large", "transaction too large", some []⟩
            rfl (by decide) (by decide)).1,
          C3_split_and_termination.2.1 5 [3, 2, 1] (by decide),
          C3_split_and_termination.2.2 baseOracle [twoGroup]⟩

/-- C4: the pNFT candidate loop follows the fixed priority order
burn-with-rules, burn-without-rules, unlock-then-burn-with-rules,
unlock-then-burn-without-rules, accepting the first existing, non-empty,
simulation-accepted candidate; when a rule set is attached and its burn
candidate simulates accepted, burn-with-rules is always chosen; when no
candidate is accepted, the fallback is the first existing candidate in the
same order (burn-with-rules when present, else burn-without-rules),
unsimulated. -/
theorem C4_pnft_priority (accept : List Ix → Bool) (v : PnftVariants) :
    (∀ bw, v.burnOnlyWithRules = some bw → bw ≠ [] → accept bw = true →
        selectPnftIxs accept v = bw)
      ∧ (candidateFails accept v.burnOnlyWithRules →
          v.burnOnly ≠ [] → accept v.burnOnly = true →
          selectPnftIxs accept v = v.burnOnly)
      ∧ (∀ ub, candidateFails accept v.burnOnlyWithRules →
          candidateFails accept (some v.burnOnly) →
          v.unlockThenBurnWithRules = some ub → ub ≠ [] → accept ub = true →
          selectPnftIxs accept v = ub)
      ∧ (candidateFails accept v.burnOnlyWithRules →
          candidateFails accept (some v.burnOnly) →
          candidateFails accept v.unlockThenBurnWithRules →
          v.unlockThenBurn ≠ [] → accept v.unlockThenBurn = true →
          selectPnftIxs accept v = v.unlockThenBurn)
      ∧ ((∀ c ∈ pnftCandidates v, candidateFails accept c) →
          selectPnftIxs accept v = pnftFallback v)
      ∧ (∀ bw, v.burnOnlyWithRules = some bw → pnftFallback v = bw)
      ∧ (v.burnOnlyWithRules = none → pnftFallback v = v.burnOnly) := by
  refine ⟨?_, ?_, ?_, ?_, ?_, ?_, ?_⟩
  · intro bw h1 h2 h3
    simp [selectPnftIxs, pnftCandidates, List.findSome?_cons,
      pnftPick_eq_some h1 h2 h3]
  · intro h0 h2 h3
    simp [selectPnftIxs, pnftCandidates, List.findSome?_cons,
      pnftPick_eq_none h0, pnftPick_eq_some rfl h2 h3]
  · intro ub h0 h1 hu h2 h3
    simp [selectPnftIxs, pnftCandidates, List.findSome?_cons,
      pnftPick_eq_none h0, pnftPick_eq_none h1, pnftPick_eq_some hu h2 h3]
  · intro h0 h1 hu h2 h3
    simp [selectPnftIxs, pnftCandidates, List.findSome?_cons,
      pnftPick_eq_none h0, pnftPick_eq_none h1, pnftPick_eq_none hu,
      pnftPick_eq_some rfl h2 h3]
  · intro hall
    have h0 := pnftPick_eq_none
      (hall v.burnOnlyWithRules (by simp [pnftCandidates]))
    have h1 := pnftPick_eq_none (hall (some v.burnOnly) (by simp [pnftCandidates]))
    have h2 := pnftPick_eq_none
      (hall v.unlockThenBurnWithRules (by simp [pnftCandidates]))
    have h3 := pnftPick_eq_none
      (hall (some v.unlockThenBurn) (by simp [pnftCandidates]))
    simp [selectPnftIxs, pnftCandidates, List.findSome?_cons, h0, h1, h2, h3]
  · intro bw h
    simp [pnftFallback, h]
  · intro h
    simp [pnftFallback, h]

/-- C4 witness: with a rule set attached and an accepting simulation, the
selector picks the burn-with-rules candidate. -/
theorem C4_witness :
    selectPnftIxs (fun _ => true)
        ⟨[.raw 2], [.raw 3], some [.raw 1], none⟩ = [.raw 1] :=
  (C4_pnft_priority (fun _ => true) ⟨[.raw 2], [.raw 3], some [.raw 1], none⟩).1
    [.raw 1] rfl (by decide) rfl

/-- C5 counterexample: a failed simulation with thirteen diagnostic log
lines yields a rejected result that carries all thirteen lines, not at most
the last twelve. -/
theorem C5_full_logs_counterexample :
    simulateIxs (.simErr (.str "boom") thirteenLogs)
        = .fail ⟨.str "boom", "boom", some thirteenLogs⟩
      ∧ thirteenLogs.length = 13
      ∧ ¬ (thirteenLogs.length ≤ 12) := by
  exact ⟨rfl, by decide, by decide⟩

/-- C5 (amended): `simulateIxs` never propagates: a thrown exception and a
returned simulation error both become failure values; the failure is
classified oversized exactly when its error text contains one of the known
oversized-payload substrings; a rejected result carries the raw error and
the full log list, while only the console diagnostic slice is truncated to
the last 12 lines. -/
theorem C5_simulation_classification :
    (∀ e, simulateIxs (.throwsE e) = .fail ⟨e, stringifyErr e, none⟩)
      ∧ (∀ err logs, simulateIxs (.simErr err logs)
            = .fail ⟨err, stringifyErr err, some logs⟩)
      ∧ (∀ s, isTooLargeErr s = true
            ↔ ∃ p ∈ oversizedPhrases, containsSub s p = true)
      ∧ (∀ logs : List String, (simDiagnosticLogs logs).length ≤ 12
            ∧ List.IsSuffix (simDiagnosticLogs logs) logs) := by
  refine ⟨fun e => rfl, fun err logs => rfl, ?_, ?_⟩
  · intro s
    constructor
    · intro h
      simp only [isTooLargeErr, Bool.or_eq_true] at h
      rcases h with ((((h | h) | h) | h) | h) | h <;>
        exact ⟨_, by simp [oversizedPhrases], h⟩
    · rintro ⟨p, hp, h⟩
      fin_cases hp <;> simp only [isTooLargeErr, Bool.or_eq_true] <;> tauto
  · intro logs
    constructor
    · simp only [simDiagnosticLogs, List.length_drop]
      omega
    · exact List.drop_suffix _ _

/-- C6: when submission of a group fails with a message indicating user
rejection, denial or cancellation, the dispatcher drops the group (no item
recorded anywhere) and continues with the remaining queue; any other
submission error becomes the result of the whole run, aborting the remaining
groups. -/
theorem C6_submit_error_handling (o : ChainOracle) (fuel : Nat)
    (group : List Group) (rest : List (List Group)) (acc : List BurnOk)
    (m : String)
    (hns : shouldSplit (simulateIxs (o.sim (finalizeGroup group))) group = false)
    (hsub : o.submit (finalizeGroup group) = .error m) :
    (isUserDecline m = true →
        sendGroupsFuel o (fuel + 1) (group :: rest) acc
          = sendGroupsFuel o fuel rest acc)
      ∧ (isUserDecline m = false →
        sendGroupsFuel o (fuel + 1) (group :: rest) acc
          = some (.error m)) := by
  constructor <;> intro hd <;>
    simp [sendGroupsFuel, hns, hsub, hd]

/-- C6 witness: a declined singleton group is skipped and the loop moves on;
a non-decline submission error aborts the run with that error. -/
theorem C6_witness :
    (sendGroupsFuel declineOracle 1 [oneGroup] []
        = sendGroupsFuel declineOracle 0 [] [])
      ∧ (sendGroupsFuel fatalOracle 1 [oneGroup] []
        = some (.error "blockhash not found")) := by
  refine ⟨(C6_submit_error_handling declineOracle 0 oneGroup [] []
            "User rejected the request." (by decide) rfl).1 (by decide),
          (C6_submit_error_handling fatalOracle 0 oneGroup [] []
            "blockhash not found" (by decide) rfl).2 (by decide)⟩

/-- C7: a simulation failure never blocks submission except through
splitting: on a non-oversized failure the group is still submitted; on an
oversized failure with exactly one item it is submitted anyway; only an
oversized failure on a group of more than one item avoids submission, by
splitting. -/
theorem C7_simulation_advisory (o : ChainOracle) (fuel : Nat)
    (group : List Group) (rest : List (List Group)) (acc : List BurnOk)
    (d : SimFailData)
    (hsim : simulateIxs (o.sim (finalizeGroup group)) = .fail d) :
    (isTooLargeErr d.errStr = false →
        sendGroupsFuel o (fuel + 1) (group :: rest) acc
          = submitStep o fuel group rest acc)
      ∧ (isTooLargeErr d.errStr = true → group.length = 1 →
        sendGroupsFuel o (fuel + 1) (group :: rest) acc
          = submitStep o fuel group rest acc)
      ∧ (isTooLargeErr d.errStr = true → 1 < group.length →
        sendGroupsFuel o (fuel + 1) (group :: rest) acc
          = sendGroupsFuel o fuel
              ((splitFront group).1 :: (splitFront group).2 :: rest) acc
          ∧ shouldSplit (.fail d) group = true) := by
  refine ⟨?_, ?_, ?_⟩
  · intro htl
    have hs : shouldSplit (simulateIxs (o.sim (finalizeGroup group))) group
        = false := by
      rw [hsim]
      simp [shouldSplit, htl]
    simp only [sendGroupsFuel, hs, Bool.false_eq_true, if_false, submitStep]
  · intro htl hlen
    have hs : shouldSplit (simulateIxs (o.sim (finalizeGroup group))) group
        = false := by
      rw [hsim]
      simp [shouldSplit, htl, hlen]
    simp only [sendGroupsFuel, hs, Bool.false_eq_true, if_false, submitStep]
  · intro htl hlen
    have hs : shouldSplit (simulateIxs (o.sim (finalizeGroup group))) group
        = true := by
      rw [hsim]
      simp [shouldSplit, htl, hlen]
    refine ⟨by simp only [sendGroupsFuel, hs, if_true], ?_⟩
    simp [shouldSplit, htl, hlen]

/-- C7 witness: a concrete non-oversized simulation failure still reaches
the submission step. -/
theorem C7_witness :
    sendGroupsFuel rejectedSimOracle 1 [oneGroup] []
      = submitStep rejectedSimOracle 0 oneGroup [] [] :=
  (C7_simulation_advisory rejectedSimOracle 0 oneGroup [] []
    ⟨.str "custom program error", "custom program error", some ["lg"]⟩
    rfl).1 (by decide)

/-- C8 counterexample: with a supplied program hint the selector uses the
hint and performs no authoritative read, so when the mint account is owned
by the 2022 program but the hint says legacy, the resolved variant differs
between the hinted and unhinted descriptor and the prepared burn instruction
follows the hint. -/
theorem C8_counterexample :
    resolveProgramId c8Oracle c1Item = Except.ok .token
      ∧ resolveProgramId c8Oracle c8ItemNoHint = Except.ok .token2022
      ∧ getMintProgramId c8Oracle "m1" = Except.ok .token2022
      ∧ prepareItem c8Oracle false c1Item
          = Sum.inr ⟨"m1", splIxs "m1" "ta1" .token, .spl⟩
      ∧ prepareItem c8Oracle false c8ItemNoHint
          = Sum.inr ⟨"m1", splIxs "m1" "ata-m1" .token2022, .spl⟩
      ∧ TokenProgram.token ≠ TokenProgram.token2022 := by
  exact ⟨rfl, rfl, rfl, rfl, rfl, by decide⟩

/-- C8 (amended): the program variant is resolved from the caller-supplied
hint whenever one is present — the on-chain mint owner is read only when no
hint is supplied — so the hint does determine the resolved variant and is
not merely an ordering optimization. -/
theorem C8_hint_determines_program (o : ChainOracle) (it : NftBurnItem) :
    (∀ p, it.programIdHint = some p → resolveProgramId o it = Except.ok p)
      ∧ (it.programIdHint = none →
          resolveProgramId o it = getMintProgramId o it.mint) := by
  constructor
  · intro p h
    simp [resolveProgramId, h]
  · intro h
    simp [resolveProgramId, h]

/-- C8 witness: the amended statement evaluated on the concrete hinted and
unhinted descriptors. -/
theorem C8_witness :
    resolveProgramId c8Oracle c1Item = Except.ok .token
      ∧ resolveProgramId c8Oracle c8ItemNoHint
          = getMintProgramId c8Oracle "m1" := by
  exact ⟨(C8_hint_determines_program c8Oracle c1Item).1 .token rfl,
         (C8_hint_determines_program c8Oracle c8ItemNoHint).2 rfl⟩

/-- C9 counterexample: when the core builder throws on a missing canonical
record, the asset is recorded as skipped with reason
"core build failed: ..." — it does not proceed to the other builders. -/
theorem C9_counterexample :
    prepareItem c9Oracle true c9Item
        = Sum.inl ⟨"m2", "core build failed: Account not found"⟩
      ∧ (prepareItem c9Oracle true c9Item).isLeft = true := by
  exact ⟨rfl, rfl⟩

/-- C9 (amended): for a core-hinted asset, a builder failure propagates to
the per-asset catch, which records the asset as skipped with reason
"core build failed: ..."; an empty candidate pair is recorded as skipped
with reason "core burn: no viable instructions"; in both cases the asset
does not reach the other builders, and the preparation loop continues with
the remaining items rather than aborting the run. -/
theorem C9_core_failure_skips (o : ChainOracle) (dc : Bool)
    (it : NftBurnItem) (e : String)
    (hc : it.isCompressed = false) (hk : it.isCoreHint = true) :
    (o.coreVariants it.mint = .error e →
        prepareItem o dc it = Sum.inl ⟨it.mint, "core build failed: " ++ e⟩)
      ∧ (o.coreVariants it.mint = .ok ([], []) →
        prepareItem o dc it
          = Sum.inl ⟨it.mint, "core burn: no viable instructions"⟩)
      ∧ (∀ (rest : List NftBurnItem) (s : BurnSkip),
          prepareItem o dc it = Sum.inl s →
          prepareItems o dc (it :: rest)
            = ((prepareItems o dc rest).1, s :: (prepareItems o dc rest).2)) := by
  refine ⟨?_, ?_, ?_⟩
  · intro h
    simp [prepareItem, hc, hk, h]
  · intro h
    simp [prepareItem, hc, hk, h]
  · intro rest s h
    simp [prepareItems, h]

/-- C9 witness: the amended statement evaluated on the concrete core-hinted
descriptor whose builder throws. -/
theorem C9_witness :
    prepareItem c9Oracle true c9Item
        = Sum.inl ⟨"m2", "core build failed: Account not found"⟩
      ∧ prepareItems c9Oracle true [c9Item]
          = ([], [⟨"m2", "core build failed: Account not found"⟩]) := by
  have h := C9_core_failure_skips c9Oracle true c9Item "Account not found" rfl rfl
  have h1 := h.1 rfl
  refine ⟨h1, ?_⟩
  rw [h.2.2 [] _ h1]
  rfl

/-- C10: the enrichment updater merges by id only: the merged list has the
same length and the same id sequence as the list it replaces, and every
element whose id is not among the enriched batch's ids is preserved as-is. -/
theorem C10_enrichment_merge_frame (curr enriched : List HeliusAsset) :
    (applyEnrichedBatch curr enriched).length = curr.length
      ∧ (applyEnrichedBatch curr enriched).map (fun a => a.id)
          = curr.map (fun a => a.id)
      ∧ (∀ (i : Nat) (c : HeliusAsset), curr[i]? = some c →
          c.id ∉ enriched.map (fun a => a.id) →
          (applyEnrichedBatch curr enriched)[i]? = some c) := by
  refine ⟨by simp [applyEnrichedBatch], ?_, ?_⟩
  · rw [applyEnrichedBatch, List.map_map]
    exact List.map_congr_left (fun c _ => applyEnriched_entry_id enriched c)
  · intro i c hi hnot
    rw [applyEnrichedBatch, List.getElem?_map, hi]
    have hfind : enriched.reverse.find? (fun e => e.id == c.id) = none := by
      rw [List.find?_eq_none]
      intro x hx heq
      apply hnot
      rw [beq_iff_eq] at heq
      exact heq ▸ List.mem_map_of_mem _ (List.mem_reverse.mp hx)
    simp [hfind]

/-- C10 witness: a concrete current list with one enriched id: the untouched
element is returned unchanged. -/
theorem C10_witness :
    (applyEnrichedBatch [⟨"a", 1⟩, ⟨"b", 2⟩] [⟨"b", 9⟩])[0]? = some ⟨"a", 1⟩ :=
  (C10_enrichment_merge_frame [⟨"a", 1⟩, ⟨"b", 2⟩] [⟨"b", 9⟩]).2.2 0 ⟨"a", 1⟩
    rfl (by decide)

end Cleaner
